import Mathlib

/-!
Verification of the `momaland` (timondesch fork) drone-swarm benchmark
environment against its natural-language specification.

Shallow embedding of the two source files:

* `momadm_benchmarks/envs/crazyrl/crazyRL_base.py` — the class
  `CrazyRLBaseParallelEnv`: construction, `reset`, `step`, `render`,
  `close`, the `lru_cache`-memoized space accessors and the module-level
  helper `_distance_to_target` with its `CLOSENESS_THRESHOLD`.
* `wrapper_testing.py` — drives the `LinearizeReward` wrapper, whose own
  code lives outside the provided sources and is therefore modelled from
  the specification where marked.

Python `float32` position coordinates are modelled as rationals (`ℚ`);
its `dict[str, ndarray]` mappings as association lists in insertion
order; the subclass-supplied abstract hooks (`_compute_obs`,
`_transition_state`, ...) as pure functions bundled in a `Hooks`
structure, the embedding of a well-formed concrete subclass.  Rendering
side effects (OpenGL draw calls) are outside the state model; the only
rendering resource the Python state tracks, `self.window`, is kept.
-/

namespace CrazyRL

/-- A 3-component XYZ position vector; the `float32` coordinates of the
Python `(3,)`-shaped `ndarray` are modelled as rationals. -/
structure Vec3 where
  x : ℚ
  y : ℚ
  z : ℚ
deriving DecidableEq, Repr

/-- A Python `dict[str, ndarray]` of positions, in insertion order. -/
abbrev PosMap := List (String × Vec3)

/-- The recognised rendering modes other than Python `None`:
`metadata["render_modes"] = ["human", "real"]`.  The Python value
`render_mode` is modelled as `Option RenderMode`, with `Option.none`
standing for Python `None`; the constructor-time
`assert render_mode is None or render_mode in self.metadata["render_modes"]`
holds by typing. -/
inductive RenderMode
  | human
  | real
deriving DecidableEq, Repr

/-- The construction parameters of `CrazyRLBaseParallelEnv.__init__`
(`drone_ids` and `target_id` are stored nowhere by the base class and are
ignored in simulation mode, so they are not part of the model). -/
structure Config where
  agents_names : List String
  init_flying_pos : PosMap
  init_target_location : PosMap
  size : Int
  render_mode : Option RenderMode
deriving DecidableEq, Repr

/-- The mutable per-instance state of `CrazyRLBaseParallelEnv`:
`_agent_location`, `_previous_location`, `_target_location`,
`_previous_target`, `possible_agents`, `timestep`, `agents`, and the
rendering resource `window` (Python `self.window`, `None` until the
first frame is drawn in human mode). Python's `.copy()` calls are
shallow dict copies; Lean's value semantics make every assignment a
copy, so they need no separate modelling. -/
structure EnvState where
  agent_location : PosMap
  previous_location : PosMap
  target_location : PosMap
  previous_target : PosMap
  possible_agents : List String
  timestep : Nat
  agents : List String
  window : Option Unit
deriving DecidableEq, Repr

/-- `CrazyRLBaseParallelEnv.__init__`: the state immediately after
construction.  `self.agents = []`; in human mode `self.window = None`,
and in the other modes the attribute is simply absent and never read, so
`window := none` covers all modes. -/
def Config.init (cfg : Config) : EnvState where
  agent_location := cfg.init_flying_pos
  previous_location := cfg.init_flying_pos
  target_location := cfg.init_target_location
  previous_target := cfg.init_target_location
  possible_agents := cfg.agents_names
  timestep := 0
  agents := []
  window := none

/-- The subclass-supplied abstract hooks of `CrazyRLBaseParallelEnv`
(`_compute_obs`, `_compute_info`, `_compute_terminated`,
`_compute_truncation`, `_compute_reward`, `_transition_state`), embedded
as pure functions of the environment state (and, for the transition, of
the action mapping), with abstract result types. -/
structure Hooks (Obs Info Term Trunc Rew Act : Type) where
  compute_obs : EnvState → Obs
  compute_info : EnvState → Info
  compute_terminated : EnvState → Term
  compute_truncation : EnvState → Trunc
  compute_reward : EnvState → Rew
  transition_state : EnvState → List (String × Act) → PosMap

/-- `CrazyRLBaseParallelEnv._render_frame`: only reachable in human
mode; lazily initialises the PyGame window on first use.  The OpenGL
draw calls and the per-frame clock are pure side effects with no
observable state beyond `self.window`, which this models. -/
def render_frame (s : EnvState) : EnvState :=
  { s with window := some () }

/-- `CrazyRLBaseParallelEnv.reset`: zeroes the timestep, restores the
active-agent list from `possible_agents`, restores the target mappings
from `_init_target_location`; only in human mode also restores the
position mappings from `_init_flying_pos` and renders one frame.
Returns the new state and `(observation, infos)` from the hooks. -/
def reset {O I T Tr R A : Type} (cfg : Config) (h : Hooks O I T Tr R A)
    (s : EnvState) : EnvState × O × I :=
  let s1 : EnvState :=
    { s with
      timestep := 0
      agents := s.possible_agents
      target_location := cfg.init_target_location
      previous_target := cfg.init_target_location }
  let s2 : EnvState :=
    if cfg.render_mode = some RenderMode.human then
      { s1 with
        agent_location := cfg.init_flying_pos
        previous_location := cfg.init_flying_pos }
    else s1
  let obs := h.compute_obs s2
  let infos := h.compute_info s2
  let s3 : EnvState :=
    if cfg.render_mode = some RenderMode.human then render_frame s2 else s2
  (s3, obs, infos)

/-- `CrazyRLBaseParallelEnv.step`: increments the timestep; only in
human mode renders a frame, applies `_transition_state` to the action
mapping and shifts the current positions into `_previous_location`; then
computes terminations, truncations, rewards, observations and infos via
the hooks and returns the five results in the source's return order
`(observations, rewards, terminations, truncations, infos)`.  The base
class performs no validation of `actions` whatsoever. -/
def step {O I T Tr R A : Type} (cfg : Config) (h : Hooks O I T Tr R A)
    (s : EnvState) (actions : List (String × A)) :
    EnvState × O × R × T × Tr × I :=
  let s1 : EnvState := { s with timestep := s.timestep + 1 }
  let s2 : EnvState :=
    if cfg.render_mode = some RenderMode.human then
      let sr := render_frame s1
      { sr with
        previous_location := sr.agent_location
        agent_location := h.transition_state sr actions }
    else s1
  (s2, h.compute_obs s2, h.compute_reward s2, h.compute_terminated s2,
    h.compute_truncation s2, h.compute_info s2)

/-- The observable effect of `close` on the process: in human mode with
an allocated window it calls `pygame.display.quit()` and
`pygame.quit()`. -/
inductive CloseEffect
  | pygame_quit
deriving DecidableEq, Repr

/-- `CrazyRLBaseParallelEnv.close`: in human mode, if the window has
been allocated, quits PyGame; otherwise does nothing.  The source never
clears `self.window`, so the state is returned unchanged; `pygame.quit`
is documented as safe to call repeatedly, so no call in the body can
fail and `close` is total. -/
def close (cfg : Config) (s : EnvState) : EnvState × List CloseEffect :=
  if cfg.render_mode = some RenderMode.human then
    if s.window.isSome then (s, [CloseEffect.pygame_quit]) else (s, [])
  else (s, [])

/-- One API call in an environment lifetime: a `reset()` or a
`step(actions)`. -/
inductive EnvOp (A : Type)
  | opReset
  | opStep (actions : List (String × A))

/-- The state after one API call (discarding the returned tuples). -/
def applyOp {O I T Tr R A : Type} (cfg : Config) (h : Hooks O I T Tr R A)
    (s : EnvState) : EnvOp A → EnvState
  | EnvOp.opReset => (reset cfg h s).1
  | EnvOp.opStep a => (step cfg h s a).1

/-- The state after a sequence of `reset`/`step` calls. -/
def run {O I T Tr R A : Type} (cfg : Config) (h : Hooks O I T Tr R A)
    (s : EnvState) : List (EnvOp A) → EnvState
  | [] => s
  | op :: ops => run cfg h (applyOp cfg h s op) ops

/-! ### The module-level distance helper -/

/-- The square of `_distance_to_target`, i.e. of
`np.linalg.norm(agent_location - target_location)`: the sum of the
squared componentwise differences.  The Euclidean distance itself is
`Real.sqrt` of this value, written out in the theorem statements (the
square root lives in `ℝ` and has no executable form; the two distances
the claims evaluate, 0 and 1, are exact in `float32` as well). -/
def distance_to_target_sq (agent_location target_location : Vec3) : ℚ :=
  (agent_location.x - target_location.x) ^ 2 +
    (agent_location.y - target_location.y) ^ 2 +
    (agent_location.z - target_location.z) ^ 2

/-- `CLOSENESS_THRESHOLD = 0.1` from `crazyRL_base.py`. -/
def CLOSENESS_THRESHOLD : ℚ := 1 / 10

/-! ### The `functools.lru_cache` space accessors

`observation_space`, `action_space` and `reward_space` are each wrapped
in `functools.lru_cache(maxsize=None)`, which keys the cache on the
`(self, agent)` argument tuple: per environment instance and per agent
identifier the underlying hook runs at most once and the cached value is
returned afterwards, with no eviction.  The three accessors share one
mechanism, modelled once over an arbitrary per-agent hook. -/

/-- One call through an `lru_cache(maxsize=None)`-wrapped per-agent
accessor of one environment instance: on a hit the cached value is
returned and the cache is unchanged; on a miss the hook runs once and
its result is inserted.  The third component counts the hook
invocations this call performs (0 or 1). -/
def cached_space_call {Space : Type} (hook : String → Space)
    (cache : List (String × Space)) (agent : String) :
    Space × List (String × Space) × Nat :=
  match cache.lookup agent with
  | some v => (v, cache, 0)
  | none => (hook agent, (agent, hook agent) :: cache, 1)

/-- The values returned by a sequence of accessor calls, paired with the
queried agent. -/
def query_results {Space : Type} (hook : String → Space) :
    List (String × Space) → List String → List (String × Space)
  | _, [] => []
  | cache, q :: qs =>
      let r := cached_space_call hook cache q
      (q, r.1) :: query_results hook r.2.1 qs

/-- How many times the underlying hook is invoked on behalf of agent `a`
over a whole sequence of accessor calls. -/
def hook_calls_for {Space : Type} (hook : String → Space) :
    List (String × Space) → List String → String → Nat
  | _, [], _ => 0
  | cache, q :: qs, a =>
      let r := cached_space_call hook cache q
      (if q = a then r.2.2 else 0) + hook_calls_for hook r.2.1 qs a

/-! ### The `LinearizeReward` wrapper -/

/-- A per-step reward, as delivered by the `LinearizeReward` parallel
wrapper: either the scalarized weighted sum (for an agent present in the
weight mapping) or the untouched reward vector (for an agent absent from
it). -/
abbrev WrappedReward := ℚ ⊕ List ℚ

/-- The weighted dot product of a reward vector with a weight vector. -/
def dot (r w : List ℚ) : ℚ := (List.zipWith (fun a b => a * b) r w).sum

/-- Modelled from the spec: the reward transformation of the
`LinearizeReward` parallel wrapper (`momaland.utils.parallel_wrappers`,
driven by `wrapper_testing.py` but itself absent from the provided
sources) on one agent's reward — "converts that agent's multi-component
reward vector into a scalar by a weighted dot product"; "Agents absent
from the weight mapping are passed through unmodified". -/
def linearize_agent_reward (weights : List (String × List ℚ))
    (agent : String) (r : List ℚ) : WrappedReward :=
  match weights.lookup agent with
  | some w => Sum.inl (dot r w)
  | none => Sum.inr r

/-- Modelled from the spec: the `LinearizeReward` wrapper applied to a
whole per-agent reward mapping at one step boundary. -/
def linearize_rewards (weights : List (String × List ℚ))
    (rewards : List (String × List ℚ)) : List (String × WrappedReward) :=
  rewards.map (fun p => (p.1, linearize_agent_reward weights p.1 p.2))

/-- Modelled from the spec: the wrapped `step` of `LinearizeReward` —
"The wrapper must preserve the outer environment's full
step/reset/close contract unchanged except for the reward payload's
shape."  It maps a five-tuple `(observations, rewards, terminations,
truncations, infos)` returned by the wrapped environment's `step` to
the tuple the wrapper returns. -/
def linearize_step {Obs Term Trunc Info : Type}
    (weights : List (String × List ℚ))
    (result : Obs × List (String × List ℚ) × Term × Trunc × Info) :
    Obs × List (String × WrappedReward) × Term × Trunc × Info :=
  (result.1, linearize_rewards weights result.2.1, result.2.2.1,
    result.2.2.2.1, result.2.2.2.2)

/-! ### Concrete witness instantiations -/

/-- A concrete simulation-mode (`render_mode=None`) construction, two
drones and one target. -/
def cfgEx : Config where
  agents_names := ["a", "b"]
  init_flying_pos := [("a", ⟨0, 0, 1⟩), ("b", ⟨1, 0, 1⟩)]
  init_target_location := [("t", ⟨1, 1, 2⟩)]
  size := 3
  render_mode := none

/-- The same construction in human rendering mode. -/
def cfgExHuman : Config := { cfgEx with render_mode := some RenderMode.human }

/-- A concrete hook instantiation: observations and rewards read the
timestep, and the transition returns the current positions unchanged (a
hovering swarm). -/
def hooksEx : Hooks Nat Nat Bool Bool ℚ Nat where
  compute_obs := fun s => s.timestep
  compute_info := fun _ => 0
  compute_terminated := fun _ => false
  compute_truncation := fun _ => false
  compute_reward := fun s => (s.timestep : ℚ)
  transition_state := fun s _ => s.agent_location

/-- A concrete weight mapping as in `wrapper_testing.py` (weights for
some agents only): `[0.2, 0.6, 2/6]` for `w0`, nothing for `w1`. -/
def weightsEx : List (String × List ℚ) :=
  [("w0", [1 / 5, 3 / 5, 1 / 3])]

/-- A concrete per-agent reward mapping delivered by a wrapped step. -/
def rewardsEx : List (String × List ℚ) :=
  [("w0", [1, 2, 3]), ("w1", [4, 5, 6])]

/-! ### Characterizations of the state after one call -/

theorem reset_fst_human {O I T Tr R A : Type} {cfg : Config}
    (h : Hooks O I T Tr R A) (s : EnvState)
    (hm : cfg.render_mode = some RenderMode.human) :
    (reset cfg h s).1 =
      { s with
        timestep := 0
        agents := s.possible_agents
        target_location := cfg.init_target_location
        previous_target := cfg.init_target_location
        agent_location := cfg.init_flying_pos
        previous_location := cfg.init_flying_pos
        window := some () } := by
  simp [reset, render_frame, hm]

theorem reset_fst_nonhuman {O I T Tr R A : Type} {cfg : Config}
    (h : Hooks O I T Tr R A) (s : EnvState)
    (hm : cfg.render_mode ≠ some RenderMode.human) :
    (reset cfg h s).1 =
      { s with
        timestep := 0
        agents := s.possible_agents
        target_location := cfg.init_target_location
        previous_target := cfg.init_target_location } := by
  simp [reset, hm]

theorem step_fst_human {O I T Tr R A : Type} {cfg : Config}
    (h : Hooks O I T Tr R A) (s : EnvState) (a : List (String × A))
    (hm : cfg.render_mode = some RenderMode.human) :
    (step cfg h s a).1 =
      { s with
        timestep := s.timestep + 1
        window := some ()
        previous_location := s.agent_location
        agent_location :=
          h.transition_state (render_frame { s with timestep := s.timestep + 1 }) a } := by
  simp [step, render_frame, hm]

theorem step_fst_nonhuman {O I T Tr R A : Type} {cfg : Config}
    (h : Hooks O I T Tr R A) (s : EnvState) (a : List (String × A))
    (hm : cfg.render_mode ≠ some RenderMode.human) :
    (step cfg h s a).1 = { s with timestep := s.timestep + 1 } := by
  simp [step, hm]

/-! ### Invariants along a run -/

theorem applyOp_possible_agents {O I T Tr R A : Type} {cfg : Config}
    (h : Hooks O I T Tr R A) (s : EnvState) (op : EnvOp A) :
    (applyOp cfg h s op).possible_agents = s.possible_agents := by
  cases op with
  | opReset =>
      by_cases hm : cfg.render_mode = some RenderMode.human
      · simp [applyOp, reset_fst_human h s hm]
      · simp [applyOp, reset_fst_nonhuman h s hm]
  | opStep a =>
      by_cases hm : cfg.render_mode = some RenderMode.human
      · simp [applyOp, step_fst_human h s a hm]
      · simp [applyOp, step_fst_nonhuman h s a hm]

theorem run_possible_agents {O I T Tr R A : Type} {cfg : Config}
    (h : Hooks O I T Tr R A) (ops : List (EnvOp A)) (s : EnvState) :
    (run cfg h s ops).possible_agents = s.possible_agents := by
  induction ops generalizing s with
  | nil => rfl
  | cons op ops ih => rw [run, ih, applyOp_possible_agents]

theorem applyOp_nonhuman_locations {O I T Tr R A : Type} {cfg : Config}
    (h : Hooks O I T Tr R A) (s : EnvState) (op : EnvOp A)
    (hm : cfg.render_mode ≠ some RenderMode.human) :
    (applyOp cfg h s op).agent_location = s.agent_location ∧
      (applyOp cfg h s op).previous_location = s.previous_location := by
  cases op with
  | opReset => simp [applyOp, reset_fst_nonhuman h s hm]
  | opStep a => simp [applyOp, step_fst_nonhuman h s a hm]

theorem run_nonhuman_locations {O I T Tr R A : Type} {cfg : Config}
    (h : Hooks O I T Tr R A) (ops : List (EnvOp A)) (s : EnvState)
    (hm : cfg.render_mode ≠ some RenderMode.human) :
    (run cfg h s ops).agent_location = s.agent_location ∧
      (run cfg h s ops).previous_location = s.previous_location := by
  induction ops generalizing s with
  | nil => exact ⟨rfl, rfl⟩
  | cons op ops ih =>
      rcases applyOp_nonhuman_locations h s op hm with ⟨h1, h2⟩
      rcases ih (applyOp cfg h s op) with ⟨h3, h4⟩
      exact ⟨h3.trans h1, h4.trans h2⟩

theorem run_append {O I T Tr R A : Type} {cfg : Config}
    (h : Hooks O I T Tr R A) (s : EnvState) (ops ops' : List (EnvOp A)) :
    run cfg h s (ops ++ ops') = run cfg h (run cfg h s ops) ops' := by
  induction ops generalizing s with
  | nil => rfl
  | cons op ops ih => rw [List.cons_append, run, run, ih]

/-! ### Claim theorems -/

/-- C6: for every environment state, every hook instantiation, every
action mapping and every render mode, one call to `step` increments the
`timestep` counter by exactly 1. -/
theorem step_increments_timestep {O I T Tr R A : Type} (cfg : Config)
    (h : Hooks O I T Tr R A) (s : EnvState) (actions : List (String × A)) :
    (step cfg h s actions).1.timestep = s.timestep + 1 := by
  by_cases hm : cfg.render_mode = some RenderMode.human
  · rw [step_fst_human h s actions hm]
  · rw [step_fst_nonhuman h s actions hm]

/-- C7: for all construction parameters, immediately after any call to
`reset` — reached by an arbitrary prior sequence of `reset`/`step` calls
from the constructed state — the timestep equals 0 and the active-agent
list equals, element-wise and in order, the full possible-agent list
fixed at construction. -/
theorem reset_zero_timestep_full_agents {O I T Tr R A : Type} (cfg : Config)
    (h : Hooks O I T Tr R A) (ops : List (EnvOp A)) :
    (run cfg h cfg.init (ops ++ [EnvOp.opReset])).timestep = 0 ∧
      (run cfg h cfg.init (ops ++ [EnvOp.opReset])).agents = cfg.agents_names := by
  rw [run_append]
  set s0 := run cfg h cfg.init ops with hs0
  have hpa : s0.possible_agents = cfg.agents_names := run_possible_agents h ops cfg.init
  show (applyOp cfg h s0 EnvOp.opReset).timestep = 0 ∧
    (applyOp cfg h s0 EnvOp.opReset).agents = cfg.agents_names
  by_cases hm : cfg.render_mode = some RenderMode.human
  · simp [applyOp, reset_fst_human h s0 hm, hpa]
  · simp [applyOp, reset_fst_nonhuman h s0 hm, hpa]

/-- C1: for every construction (hence every render mode) and every
prior sequence of `reset`/`step` calls, each call to `reset`
reinitializes the timestep to 0 and restores the agent-position,
previous-position, target and previous-target mappings to the initial
values supplied at construction. -/
theorem reset_restores_initial_state {O I T Tr R A : Type} (cfg : Config)
    (h : Hooks O I T Tr R A) (ops : List (EnvOp A)) :
    (run cfg h cfg.init (ops ++ [EnvOp.opReset])).timestep = 0 ∧
      (run cfg h cfg.init (ops ++ [EnvOp.opReset])).agent_location = cfg.init_flying_pos ∧
      (run cfg h cfg.init (ops ++ [EnvOp.opReset])).previous_location = cfg.init_flying_pos ∧
      (run cfg h cfg.init (ops ++ [EnvOp.opReset])).target_location = cfg.init_target_location ∧
      (run cfg h cfg.init (ops ++ [EnvOp.opReset])).previous_target = cfg.init_target_location := by
  rw [run_append]
  set s0 := run cfg h cfg.init ops with hs0
  show (applyOp cfg h s0 EnvOp.opReset).timestep = 0 ∧
    (applyOp cfg h s0 EnvOp.opReset).agent_location = cfg.init_flying_pos ∧
    (applyOp cfg h s0 EnvOp.opReset).previous_location = cfg.init_flying_pos ∧
    (applyOp cfg h s0 EnvOp.opReset).target_location = cfg.init_target_location ∧
    (applyOp cfg h s0 EnvOp.opReset).previous_target = cfg.init_target_location
  by_cases hm : cfg.render_mode = some RenderMode.human
  · simp [applyOp, reset_fst_human h s0 hm]
  · have hloc := run_nonhuman_locations h ops cfg.init hm
    rw [← hs0] at hloc
    simp [applyOp, reset_fst_nonhuman h s0 hm, hloc.1, hloc.2, Config.init]

/-- C2 counterexample: in the concrete simulation-mode environment,
after `reset` the active-agent list is `["a", "b"]`, yet `step` called
with an empty action mapping — missing an entry for every active agent —
returns exactly the same normal five-tuple-and-state result as `step`
called with a complete action mapping: no error is signalled, the
discrepancy is silently ignored. -/
theorem step_missing_action_not_rejected :
    (run cfgEx hooksEx cfgEx.init [EnvOp.opReset]).agents = ["a", "b"] ∧
      step cfgEx hooksEx (run cfgEx hooksEx cfgEx.init [EnvOp.opReset])
          ([] : List (String × Nat)) =
        step cfgEx hooksEx (run cfgEx hooksEx cfgEx.init [EnvOp.opReset])
          [("a", 0), ("b", 1)] := by
  exact ⟨rfl, rfl⟩

/-- C2 amended: the base `step` performs no validation of the `actions`
mapping and signals no error for missing, extra or unknown entries: in
render modes `None` and `"real"` its result does not depend on `actions`
at all, and in `"human"` mode it depends on `actions` only through the
value the subclass transition hook computes from them, so whenever the
hook does not distinguish two mappings neither does `step`. -/
theorem step_no_action_checking {O I T Tr R A : Type} (cfg : Config)
    (h : Hooks O I T Tr R A) (s : EnvState) (a a' : List (String × A)) :
    (cfg.render_mode ≠ some RenderMode.human → step cfg h s a = step cfg h s a') ∧
      (h.transition_state (render_frame { s with timestep := s.timestep + 1 }) a =
          h.transition_state (render_frame { s with timestep := s.timestep + 1 }) a' →
        step cfg h s a = step cfg h s a') := by
  constructor
  · intro hm
    simp [step, hm]
  · intro ht
    by_cases hm : cfg.render_mode = some RenderMode.human
    · simp only [step, hm, if_pos, ht]
    · simp [step, hm]

theorem step_no_action_checking_witness :
    step cfgEx hooksEx cfgEx.init ([] : List (String × Nat)) =
      step cfgEx hooksEx cfgEx.init [("a", 7)] :=
  (step_no_action_checking cfgEx hooksEx cfgEx.init [] [("a", 7)]).1 (by decide)

/-- C3: with render mode `None` or `"real"`, `step` mutates only the
timestep — the resulting state is the input state with `timestep`
incremented, so the position and previous-position mappings are
unchanged — and its whole result (state and returned tuple) is
independent both of the `_transition_state` hook and of the `actions`
argument, so the hook is never invoked and the actions are never read. -/
theorem step_nonhuman_frame {O I T Tr R A : Type} (cfg : Config)
    (h : Hooks O I T Tr R A) (tr' : EnvState → List (String × A) → PosMap)
    (s : EnvState) (a a' : List (String × A))
    (hm : cfg.render_mode ≠ some RenderMode.human) :
    (step cfg h s a).1 = { s with timestep := s.timestep + 1 } ∧
      step cfg h s a = step cfg { h with transition_state := tr' } s a' := by
  refine ⟨step_fst_nonhuman h s a hm, ?_⟩
  simp [step, hm]

theorem step_nonhuman_frame_witness :
    (step cfgEx hooksEx cfgEx.init [(("a" : String), (5 : Nat))]).1 =
        { cfgEx.init with timestep := cfgEx.init.timestep + 1 } ∧
      step cfgEx hooksEx cfgEx.init [(("a" : String), (5 : Nat))] =
        step cfgEx { hooksEx with transition_state := fun _ _ => [] } cfgEx.init
          ([] : List (String × Nat)) :=
  step_nonhuman_frame cfgEx hooksEx (fun _ _ => []) cfgEx.init
    [(("a" : String), (5 : Nat))] [] (by decide)

/-- C4 counterexample: in the concrete human-mode environment whose
transition hook returns the current positions unchanged (a hovering
swarm), after `reset` followed by one `step` the previous-position
mapping is equal to the newly-computed current positions — refuting
"never equals the newly-computed current positions". -/
theorem previous_equals_current_after_step :
    (run cfgExHuman hooksEx cfgExHuman.init
        [EnvOp.opReset, EnvOp.opStep [(("a" : String), (0 : Nat))]]).previous_location =
      (run cfgExHuman hooksEx cfgExHuman.init
        [EnvOp.opReset, EnvOp.opStep [(("a" : String), (0 : Nat))]]).agent_location := by
  rfl

/-- C4 amended: for every sequence of `reset`/`step` calls from the
constructed state, after each step boundary the previous-position
mapping equals exactly the agent positions as they were before that
step's transition; it may however coincide with the newly-computed
current positions (e.g. when the transition leaves the positions
unchanged, or in render modes without a transition). -/
theorem previous_location_is_prior_positions {O I T Tr R A : Type} (cfg : Config)
    (h : Hooks O I T Tr R A) (ops : List (EnvOp A)) (a : List (String × A)) :
    (run cfg h cfg.init (ops ++ [EnvOp.opStep a])).previous_location =
      (run cfg h cfg.init ops).agent_location := by
  rw [run_append]
  set s0 := run cfg h cfg.init ops with hs0
  show (applyOp cfg h s0 (EnvOp.opStep a)).previous_location = s0.agent_location
  by_cases hm : cfg.render_mode = some RenderMode.human
  · simp [applyOp, step_fst_human h s0 a hm]
  · have hloc := run_nonhuman_locations h ops cfg.init hm
    rw [← hs0] at hloc
    simp only [applyOp, step_fst_nonhuman h s0 a hm]
    rw [hloc.2, hloc.1]
    rfl

/-- C5: `close` is callable from any state in every render mode and is
idempotent: it never changes the environment state, so a second call
behaves exactly like the first, and when no rendering resources were
allocated (non-human mode, or no window yet) it performs no effect at
all.  Its body contains no failing operation — `pygame.quit` is
documented safe to call repeatedly — so no call to `close` can raise. -/
theorem close_idempotent_no_resources (cfg : Config) (s : EnvState) :
    (close cfg s).1 = s ∧
      close cfg (close cfg s).1 = close cfg s ∧
      (cfg.render_mode ≠ some RenderMode.human ∨ s.window = none →
        close cfg s = (s, [])) := by
  have h1 : (close cfg s).1 = s := by
    unfold close
    split
    · split <;> rfl
    · rfl
  refine ⟨h1, by rw [h1], ?_⟩
  rintro (hm | hw)
  · simp [close, hm]
  · simp [close, hw]

theorem close_idempotent_witness :
    close cfgEx cfgEx.init = (cfgEx.init, []) :=
  (close_idempotent_no_resources cfgEx cfgEx.init).2.2 (Or.inl (by decide))

/-! ### Lemmas about the memoized accessors -/

theorem lookup_cons_eq {β : Type} (k a : String) (b : β) (es : List (String × β)) :
    ((k, b) :: es).lookup a = if a = k then some b else es.lookup a := by
  rw [List.lookup_cons]
  by_cases h : a = k
  · subst h
    simp
  · rw [beq_eq_false_iff_ne.mpr h, if_neg h]

theorem cached_space_call_consistent {Space : Type} (hook : String → Space)
    (cache : List (String × Space)) (agent : String)
    (hc : ∀ a v, cache.lookup a = some v → v = hook a) :
    (cached_space_call hook cache agent).1 = hook agent ∧
      ∀ a v, (cached_space_call hook cache agent).2.1.lookup a = some v → v = hook a := by
  unfold cached_space_call
  cases hl : cache.lookup agent with
  | some v => exact ⟨hc agent v hl, hc⟩
  | none =>
      refine ⟨rfl, ?_⟩
      intro a v hv
      rw [lookup_cons_eq] at hv
      by_cases hk : a = agent
      · subst hk
        rw [if_pos rfl] at hv
        exact (Option.some.inj hv).symm
      · rw [if_neg hk] at hv
        exact hc a v hv

theorem query_results_consistent {Space : Type} (hook : String → Space)
    (qs : List String) (cache : List (String × Space))
    (hc : ∀ a v, cache.lookup a = some v → v = hook a) :
    ∀ p ∈ query_results hook cache qs, p.2 = hook p.1 := by
  induction qs generalizing cache with
  | nil =>
      intro p hp
      simp [query_results] at hp
  | cons q qs ih =>
      intro p hp
      rcases cached_space_call_consistent hook cache q hc with ⟨h1, h2⟩
      rw [query_results] at hp
      rcases List.mem_cons.mp hp with hp | hp
      · rw [hp]
        exact h1
      · exact ih (cached_space_call hook cache q).2.1 h2 p hp

theorem hook_calls_for_zero_of_cached {Space : Type} (hook : String → Space)
    (qs : List String) (cache : List (String × Space)) (a : String)
    (hc : (cache.lookup a).isSome) :
    hook_calls_for hook cache qs a = 0 := by
  induction qs generalizing cache with
  | nil => rfl
  | cons q qs ih =>
      rw [hook_calls_for]
      cases hl : cache.lookup q with
      | some v =>
          simp only [cached_space_call, hl]
          have hz : (if q = a then 0 else 0) = 0 := by split <;> rfl
          rw [hz, Nat.zero_add]
          exact ih cache hc
      | none =>
          simp only [cached_space_call, hl]
          have hqa : q ≠ a := by
            intro h
            subst h
            rw [hl] at hc
            simp at hc
          rw [if_neg hqa, Nat.zero_add]
          refine ih ((q, hook q) :: cache) ?_
          rw [lookup_cons_eq, if_neg (fun h => hqa h.symm)]
          exact hc

theorem hook_calls_for_le_one {Space : Type} (hook : String → Space)
    (qs : List String) (cache : List (String × Space)) (a : String) :
    hook_calls_for hook cache qs a ≤ 1 := by
  induction qs generalizing cache with
  | nil => exact Nat.zero_le 1
  | cons q qs ih =>
      rw [hook_calls_for]
      cases hl : cache.lookup q with
      | some v =>
          simp only [cached_space_call, hl]
          have hz : (if q = a then 0 else 0) = 0 := by split <;> rfl
          rw [hz, Nat.zero_add]
          exact ih cache
      | none =>
          simp only [cached_space_call, hl]
          by_cases hq : q = a
          · subst hq
            rw [if_pos rfl]
            have hz : hook_calls_for hook ((q, hook q) :: cache) qs q = 0 :=
              hook_calls_for_zero_of_cached hook qs ((q, hook q) :: cache) q
                (by rw [List.lookup_cons_self]; rfl)
            rw [hz]
          · rw [if_neg hq, Nat.zero_add]
            exact ih ((q, hook q) :: cache)

/-- C8: the `lru_cache(maxsize=None)`-memoized space accessors
(`observation_space`, `action_space`, `reward_space` all share this
mechanism): over any sequence of accessor calls on one environment
instance starting from the empty cache, every call for an agent returns
the single value the hook computes for that agent — so repeated calls
with the same agent identifier return the identical value — and the
underlying subclass hook is invoked at most once per agent for the
lifetime of the instance. -/
theorem space_accessors_memoized {Space : Type} (hook : String → Space)
    (qs : List String) (a : String) (p : String × Space) :
    (p ∈ query_results hook [] qs → p.2 = hook p.1) ∧
      hook_calls_for hook [] qs a ≤ 1 := by
  constructor
  · intro hp
    refine query_results_consistent hook qs [] ?_ p hp
    intro a v hv
    simp at hv
  · exact hook_calls_for_le_one hook qs [] a

theorem space_accessors_memoized_witness :
    ((("a" : String), (42 : Nat)).2 = (fun _ => (42 : Nat)) "a") ∧
      hook_calls_for (fun _ => (42 : Nat)) [] ["a", "a", "b"] "a" ≤ 1 :=
  ⟨(space_accessors_memoized (fun _ => (42 : Nat)) ["a", "a", "b"] "a"
      (("a" : String), (42 : Nat))).1 (by decide),
    (space_accessors_memoized (fun _ => (42 : Nat)) ["a", "a", "b"] "a"
      (("a" : String), (42 : Nat))).2⟩

/-! ### The reward-linearization wrapper -/

theorem lookup_linearize_rewards (weights rewards : List (String × List ℚ))
    (agent : String) :
    (linearize_rewards weights rewards).lookup agent =
      (rewards.lookup agent).map (linearize_agent_reward weights agent) := by
  induction rewards with
  | nil => rfl
  | cons p ps ih =>
      rcases p with ⟨k, v⟩
      rw [linearize_rewards, List.map_cons, lookup_cons_eq, lookup_cons_eq]
      by_cases hk : agent = k
      · subst hk
        rw [if_pos rfl, if_pos rfl]
        rfl
      · rw [if_neg hk, if_neg hk]
        exact ih

/-- C9: the `LinearizeReward` wrapper contract (modelled from the spec;
the wrapper's code is not among the provided sources).  For every agent
present in the weight mapping the wrapped step delivers that agent's
reward as the scalar dot product of its reward vector with its weight
vector; every agent absent from the weight mapping receives its
original reward vector unchanged; the observations, terminations,
truncations and infos of the step result pass through unmodified; and
on the spec's example, reward vector `[1, 2, 3]` with weight vector
`[0.2, 0.6, 2/6]` yields exactly `12/5 = 2.4`. -/
theorem linearize_reward_contract {Obs Term Trunc Info : Type}
    (weights rewards : List (String × List ℚ)) (agent : String)
    (w r : List ℚ)
    (result : Obs × List (String × List ℚ) × Term × Trunc × Info) :
    (weights.lookup agent = some w → rewards.lookup agent = some r →
        (linearize_rewards weights rewards).lookup agent = some (Sum.inl (dot r w))) ∧
      (weights.lookup agent = none → rewards.lookup agent = some r →
        (linearize_rewards weights rewards).lookup agent = some (Sum.inr r)) ∧
      ((linearize_step weights result).1 = result.1 ∧
        (linearize_step weights result).2.1 = linearize_rewards weights result.2.1 ∧
        (linearize_step weights result).2.2.1 = result.2.2.1 ∧
        (linearize_step weights result).2.2.2.1 = result.2.2.2.1 ∧
        (linearize_step weights result).2.2.2.2 = result.2.2.2.2) ∧
      dot [1, 2, 3] [1 / 5, 3 / 5, 1 / 3] = 12 / 5 := by
  refine ⟨?_, ?_, ⟨rfl, rfl, rfl, rfl, rfl⟩, by norm_num [dot]⟩
  · intro hw hr
    rw [lookup_linearize_rewards, hr]
    simp [linearize_agent_reward, hw]
  · intro hw hr
    rw [lookup_linearize_rewards, hr]
    simp [linearize_agent_reward, hw]

theorem linearize_reward_contract_witness :
    (linearize_rewards weightsEx rewardsEx).lookup "w0" =
        some (Sum.inl (dot [1, 2, 3] [1 / 5, 3 / 5, 1 / 3])) ∧
      (linearize_rewards weightsEx rewardsEx).lookup "w1" =
        some (Sum.inr [4, 5, 6]) :=
  ⟨(@linearize_reward_contract Unit Unit Unit Unit weightsEx rewardsEx "w0"
      [1 / 5, 3 / 5, 1 / 3] [1, 2, 3] ((), rewardsEx, (), (), ())).1
      rfl rfl,
    (@linearize_reward_contract Unit Unit Unit Unit weightsEx rewardsEx "w1"
      [] [4, 5, 6] ((), rewardsEx, (), (), ())).2.1
      rfl rfl⟩

/-! ### The distance primitive -/

/-- C10: the proximity primitive is Euclidean distance with the fixed
threshold `CLOSENESS_THRESHOLD = 0.1`: for every point, the distance
(the square root of `distance_to_target_sq`) from the point to itself is
0, strictly below the threshold, and the distance to the point shifted
by exactly 1.0 unit along any single axis is 1, at or above the
threshold. -/
theorem distance_threshold_properties (p d : Vec3)
    (hd : d = ⟨1, 0, 0⟩ ∨ d = ⟨0, 1, 0⟩ ∨ d = ⟨0, 0, 1⟩) :
    Real.sqrt ((distance_to_target_sq p p : ℚ) : ℝ) = 0 ∧
      (0 : ℝ) < ((CLOSENESS_THRESHOLD : ℚ) : ℝ) ∧
      Real.sqrt ((distance_to_target_sq p
          ⟨p.x + d.x, p.y + d.y, p.z + d.z⟩ : ℚ) : ℝ) = 1 ∧
      ((CLOSENESS_THRESHOLD : ℚ) : ℝ) ≤ 1 := by
  have h0 : distance_to_target_sq p p = 0 := by
    simp [distance_to_target_sq]
  have h1 : distance_to_target_sq p ⟨p.x + d.x, p.y + d.y, p.z + d.z⟩ = 1 := by
    rcases hd with rfl | rfl | rfl <;>
      · simp only [distance_to_target_sq]
        ring
  refine ⟨?_, ?_, ?_, ?_⟩
  · rw [h0]
    simp
  · norm_num [CLOSENESS_THRESHOLD]
  · rw [h1]
    simp
  · norm_num [CLOSENESS_THRESHOLD]

theorem distance_threshold_witness :
    Real.sqrt ((distance_to_target_sq ⟨0, 0, 0⟩ ⟨0, 0, 0⟩ : ℚ) : ℝ) = 0 ∧
      (0 : ℝ) < ((CLOSENESS_THRESHOLD : ℚ) : ℝ) ∧
      Real.sqrt ((distance_to_target_sq ⟨0, 0, 0⟩ ⟨1, 0, 0⟩ : ℚ) : ℝ) = 1 ∧
      ((CLOSENESS_THRESHOLD : ℚ) : ℝ) ≤ 1 := by
  have h := distance_threshold_properties ⟨0, 0, 0⟩ ⟨1, 0, 0⟩ (Or.inl rfl)
  refine ⟨h.1, h.2.1, ?_, h.2.2.2⟩
  have h3 := h.2.2.1
  norm_num at h3 ⊢
  exact h3

end CrazyRL
